import Mathlib

/-!
Verification of the `DefaultQubitInterpreter` core
(`src/pennylane/devices/qubit/dq_interpreter.py`) and of the wire-relabeling
utility (`src/pennylane/ops/functions/map_wires.py`).

The Python code is shallowly embedded: the interpreter object becomes a record,
the shared mutable `stateref` dictionary becomes a box allocated on an explicit
heap (`Machine.boxes`), and Python's `copy.copy(self)` becomes a value copy that
preserves the heap reference.  External collaborators (`apply_operation`,
`measure`, `measure_with_samples`, `create_initial_state`, the recursive
`PlxprInterpreter.eval`) are universally quantified function parameters, and the
jax PRNG key splitter is modelled from the spec as an injective binary split.
-/

namespace DQ

/-- Keys of the jax pseudorandom stream.

Modelled from the spec: the concrete `jax.random.PRNGKey` representation is an
external collaborator; only its identity matters here, so keys are labels. -/
abbrev Key := Nat

/-- Modelled from the spec: `jax.random.split(key, 2)` — an external collaborator
that splits one key into two independent fresh keys.  Modelled as descent in an
infinite binary tree, so distinct split paths always yield distinct keys and a
split never returns an ancestor key. -/
def prngSplit (k : Key) : Key × Key := (2 * k + 1, 2 * k + 2)

/-- Classical values flowing through the interpreter (loop indices, booleans,
mid-measurement outcomes). -/
inductive Val where
  | i : Int → Val
  | b : Bool → Val
deriving DecidableEq, Repr

/-- Modelled from the spec: Python truthiness of the classical scalar values the
handlers branch on (`while ...[0]:`, `if pred and ...`). -/
def Val.truthy : Val → Bool
  | .i n => n != 0
  | .b bb => bb

/-- Errors raised by the embedded code.  `executionNotInitialized` is the
`AttributeError("execution not yet initialized.")` of the state/key setters,
`rangeZeroStep` is Python's `ValueError` for `range(start, stop, 0)`,
`indexError` is indexing an empty result list, and `collaborator` carries a
failure propagated from an external engine. -/
inductive Err where
  | executionNotInitialized
  | rangeZeroStep
  | indexError
  | uninitializedState
  | collaborator : Nat → Err
deriving DecidableEq, Repr

/-- Python slice `slice(lo, hi)` with an optional upper bound, as used for
`consts_slice` / `args_slice`. -/
structure PySlice where
  lo : Nat
  hi : Option Nat
deriving DecidableEq, Repr

/-- Evaluation of `l[s]` for a `PySlice` (only nonnegative bounds and unit step
occur in the interpreter). -/
def applySlice (l : List α) (s : PySlice) : List α :=
  match s.hi with
  | some h => (l.take h).drop s.lo
  | none => l.drop s.lo

/-- Pointwise update of one heap cell. -/
def listModify (l : List α) (i : Nat) (f : α → α) : List α :=
  match l, i with
  | [], _ => []
  | a :: as, 0 => f a :: as
  | a :: as, n + 1 => a :: listModify as n f

/-- Zip of the three lists travelling together in the `cond_prim` handler. -/
def zip3 : List α → List β → List γ → List (α × β × γ)
  | a :: as, b :: bs, c :: cs => (a, b, c) :: zip3 as bs cs
  | _, _, _ => []

/-- The Execution State Box: the `stateref` dictionary
`{"state": ..., "key": ...}` shared by reference across frames. -/
structure Box (Q : Type) where
  state : Q
  key : Key
deriving DecidableEq, Repr

/-- Ambient machine state: the heap of allocated boxes (a `stateref` is an index
into it, standing for a Python object reference) and the global capture
enable/disable flag toggled by `qml.capture.enable` / `disable`. -/
structure Machine (Q : Type) where
  boxes : List (Box Q)
  captureEnabled : Bool
deriving DecidableEq, Repr

/-- The interpreter object: fields of `DefaultQubitInterpreter.__init__`.
`stateref` is `none` when the Python attribute is `None`, otherwise a heap
reference to the shared Box. -/
structure DefaultQubitInterpreter where
  num_wires : Nat
  shots : Option Nat
  initial_key : Key
  stateref : Option Nat
deriving DecidableEq, Repr

namespace DefaultQubitInterpreter

variable {Q : Type}

/-- Python's `copy(self)`: a shallow copy — a fresh interpreter object whose
fields (including the `stateref` reference, but not the referenced dictionary)
equal the original's.  Under value semantics this is exactly the same record. -/
def copyInterp (self : DefaultQubitInterpreter) : DefaultQubitInterpreter := self

/-- The `state` property getter: `self.stateref["state"] if self.stateref else
None`.  A dangling reference cannot arise in the source (a held dictionary
reference is always valid); it is mapped to `none` as well. -/
def state (self : DefaultQubitInterpreter) (m : Machine Q) : Option Q :=
  match self.stateref with
  | some r => (m.boxes[r]?).map Box.state
  | none => none

/-- The `key` property getter: `self.stateref["key"] if self.stateref else
self.initial_key`.  A dangling reference cannot arise in the source; it falls
back to `initial_key` as well. -/
def key (self : DefaultQubitInterpreter) (m : Machine Q) : Key :=
  match self.stateref with
  | some r =>
    match m.boxes[r]? with
    | some bx => bx.key
    | none => self.initial_key
  | none => self.initial_key

/-- The `state` property setter: raises `AttributeError` when no Box exists,
otherwise mutates the shared Box's `state` field in place. -/
def setState (self : DefaultQubitInterpreter) (v : Q) (m : Machine Q) :
    Except Err (Machine Q) :=
  match self.stateref with
  | none => .error .executionNotInitialized
  | some r => .ok { m with boxes := listModify m.boxes r (fun bx => { bx with state := v }) }

/-- The `key` property setter: raises `AttributeError` when no Box exists,
otherwise mutates the shared Box's `key` field in place. -/
def setKey (self : DefaultQubitInterpreter) (v : Key) (m : Machine Q) :
    Except Err (Machine Q) :=
  match self.stateref with
  | none => .error .executionNotInitialized
  | some r => .ok { m with boxes := listModify m.boxes r (fun bx => { bx with key := v }) }

/-- `DefaultQubitInterpreter.setup`: when no Box exists, allocate a fresh one
holding `create_initial_state(range(num_wires))` and `initial_key`; when a Box
already exists (the interpreter was copied from a parent frame), leave
everything untouched.  `createInitialState` is the external state-initializer
collaborator. -/
def setup (createInitialState : Nat → Q) (self : DefaultQubitInterpreter)
    (m : Machine Q) : DefaultQubitInterpreter × Machine Q :=
  match self.stateref with
  | none =>
    ({ self with stateref := some m.boxes.length },
     { m with boxes := m.boxes ++ [⟨createInitialState self.num_wires, self.initial_key⟩] })
  | some _ => (self, m)

/-- `DefaultQubitInterpreter.cleanup`: persist the current key as the next
invocation's `initial_key`, then drop the reference to the Box (the heap cell
itself is untouched — the reference is detached, not destroyed). -/
def cleanup (self : DefaultQubitInterpreter) (m : Machine Q) :
    DefaultQubitInterpreter :=
  { self with initial_key := self.key m, stateref := none }

/-- Modelled from the spec: the skeleton of `PlxprInterpreter.eval`
(`pennylane/capture/base_interpreter.py`, not under `src/`) as it drives the
lifecycle — it calls `setup` on entry, runs the program's equations, and calls
`cleanup` on exit; `run` abstracts the equation-processing body. -/
def evalTop (createInitialState : Nat → Q)
    (run : DefaultQubitInterpreter → Machine Q → List Val × Machine Q)
    (self : DefaultQubitInterpreter) (m : Machine Q) :
    List Val × DefaultQubitInterpreter × Machine Q :=
  let sm := setup createInitialState self m
  let outs := run sm.1 sm.2
  (outs.1, cleanup sm.1 outs.2, outs.2)

end DefaultQubitInterpreter

open DefaultQubitInterpreter

variable {Q Meas : Type}

/-- Number of elements of Python's `range(start, stop, step)` for nonzero
`step` (ceiling of `(stop-start)/step`, clamped at zero). -/
def rangeLen (start stop step : Int) : Nat :=
  if 0 < step then ((stop - start + step - 1) / step).toNat
  else ((start - stop + (-step) - 1) / (-step)).toNat

/-- The list of values produced by Python's `range(start, stop, step)` for
nonzero `step`. -/
def pyRange (start stop step : Int) : List Int :=
  (List.range (rangeLen start stop step)).map (fun (j : Nat) => start + (j : Int) * step)

/-- Type of the recursive evaluator `eval(jaxpr, consts, *args)` of the parent
class `PlxprInterpreter`, abstracted: it receives the (child) interpreter
object, an opaque jaxpr identifier, the constants, the positional arguments and
the ambient machine, and returns the output values and the updated machine. -/
abbrev EvalFn (Q : Type) :=
  DefaultQubitInterpreter → Nat → List Val → List Val → Machine Q → List Val × Machine Q

/-- The `measure_prim` handler: builds the `MidMeasureMP`, splits the current
key (retaining the first half as the Box's new key), applies the measurement to
the state through the operation-application collaborator with the second half,
stores the resulting state, and returns the recorded outcome.
`applyMCM` abstracts `apply_operation(mp, state, mid_measurements=mcms,
prng_key=new_key)` together with the outcome it records into `mcms`. -/
def measure_prim_handler (applyMCM : List Val → Bool → Option Int → Q → Key → Q × Val)
    (self : DefaultQubitInterpreter) (invals : List Val) (reset : Bool)
    (postselect : Option Int) (m : Machine Q) : Except Err (Val × Machine Q) :=
  let ks := prngSplit (self.key m)
  match self.setKey ks.1 m with
  | .error e => .error e
  | .ok m1 =>
    match self.state m1 with
    | none => .error .uninitializedState
    | some s =>
      let res := applyMCM invals reset postselect s ks.2
      match self.setState res.1 m1 with
      | .error e => .error e
      | .ok m2 => .ok (res.2, m2)

/-- The `for_loop_prim` handler: slice out the constants and the initial
carried arguments, then `for i in range(start, stop, step)` re-evaluate the body
in a copied interpreter, threading the outputs as the next carried arguments.
A zero `step` is Python's `ValueError` from `range`. -/
def for_loop_prim_handler (ev : EvalFn Q) (self : DefaultQubitInterpreter)
    (start stop step : Int) (invals : List Val) (jaxpr_body_fn : Nat)
    (consts_slice args_slice : PySlice) (m : Machine Q) :
    Except Err (List Val × Machine Q) :=
  if step = 0 then .error .rangeZeroStep
  else
    let consts := applySlice invals consts_slice
    let init_state := applySlice invals args_slice
    .ok ((pyRange start stop step).foldl
      (fun acc i => ev (copyInterp self) jaxpr_body_fn consts (Val.i i :: acc.1) acc.2)
      (init_state, m))

/-- Iteration core of the `while_loop_prim` handler, indexed by fuel since the
source loop need not terminate; `none` models divergence, `indexError` models
`[0]` on an empty condition result. -/
def while_go (ev : EvalFn Q) (self : DefaultQubitInterpreter)
    (jaxpr_body_fn jaxpr_cond_fn : Nat) (consts_body consts_cond : List Val) :
    Nat → List Val → Machine Q → Option (Except Err (List Val × Machine Q))
  | 0, _, _ => none
  | fuel + 1, fn_res, m =>
    let cres := ev (copyInterp self) jaxpr_cond_fn consts_cond fn_res m
    match cres.1.head? with
    | none => some (.error .indexError)
    | some v =>
      if v.truthy then
        let bres := ev (copyInterp self) jaxpr_body_fn consts_body fn_res cres.2
        while_go ev self jaxpr_body_fn jaxpr_cond_fn consts_body consts_cond fuel bres.1 bres.2
      else some (.ok (fn_res, cres.2))

/-- The `while_loop_prim` handler: slice out the two constant lists and the
initial carried arguments, then alternate condition evaluation and body
evaluation, each in a copied interpreter, until the condition's first output is
falsy. -/
def while_loop_prim_handler (ev : EvalFn Q) (fuel : Nat)
    (self : DefaultQubitInterpreter) (invals : List Val)
    (jaxpr_body_fn jaxpr_cond_fn : Nat) (body_slice cond_slice args_slice : PySlice)
    (m : Machine Q) : Option (Except Err (List Val × Machine Q)) :=
  while_go ev self jaxpr_body_fn jaxpr_cond_fn
    (applySlice invals body_slice) (applySlice invals cond_slice)
    fuel (applySlice invals args_slice) m

/-- Branch scan of the `cond_prim` handler: walk the zipped
`(pred, jaxpr, const_slice)` tuples; on the first tuple whose predicate is
truthy and whose jaxpr is present, evaluate it in a copied interpreter and
return; if none matches, return the empty tuple with the machine untouched. -/
def cond_go (ev : EvalFn Q) (self : DefaultQubitInterpreter)
    (invals args : List Val) (m : Machine Q) :
    List (Val × Option Nat × PySlice) → List Val × Machine Q
  | [] => ([], m)
  | (pred, jx, cs) :: rest =>
    match jx, pred.truthy with
    | some j, true => ev (copyInterp self) j (applySlice invals cs) args m
    | _, _ => cond_go ev self invals args m rest

/-- The `cond_prim` handler: the first `len(jaxpr_branches)` invals are the
branch predicates, `args_slice` selects the shared arguments, and the branches
are scanned in order by `cond_go`. -/
def cond_prim_handler (ev : EvalFn Q) (self : DefaultQubitInterpreter)
    (invals : List Val) (jaxpr_branches : List (Option Nat))
    (consts_slices : List PySlice) (args_slice : PySlice) (m : Machine Q) :
    List Val × Machine Q :=
  cond_go ev self invals (applySlice invals args_slice) m
    (zip3 (invals.take jaxpr_branches.length) jaxpr_branches consts_slices)

/-- `DefaultQubitInterpreter.interpret_measurement`: disable the ambient
capture mechanism, then — inside a `try`/`finally` that re-enables it on every
exit path — either (shots set) split the key, retain the first half, and draw
samples with the second half via `measure_with_samples([measurement], ...)`
(`mwsF`), or (analytic) compute the statistic directly via `measure` (`mF`).
Both collaborators receive the ambient capture flag they observe and may fail;
a failure is propagated after the `finally` re-enable runs. -/
def interpret_measurement (mF : Meas → Q → Bool → Except Err Val)
    (mwsF : List Meas → Q → Nat → Key → Bool → Except Err (List Val))
    (self : DefaultQubitInterpreter) (measurement : Meas) (m : Machine Q) :
    Except Err Val × Machine Q :=
  let m0 : Machine Q := { m with captureEnabled := false }
  let body : Except Err Val × Machine Q :=
    match self.shots with
    | some ns =>
      let ks := prngSplit (self.key m0)
      match self.setKey ks.1 m0 with
      | .error e => (.error e, m0)
      | .ok m1 =>
        match self.state m1 with
        | none => (.error .uninitializedState, m1)
        | some s =>
          match mwsF [measurement] s ns ks.2 m1.captureEnabled with
          | .error e => (.error e, m1)
          | .ok outs =>
            match outs.head? with
            | none => (.error .indexError, m1)
            | some v => (.ok v, m1)
    | none =>
      match self.state m0 with
      | none => (.error .uninitializedState, m0)
      | some s =>
        match mF measurement s m0.captureEnabled with
        | .error e => (.error e, m0)
        | .ok v => (.ok v, m0)
  (body.1, { body.2 with captureEnabled := true })

/-! ### Queue-free wire relabeling (`src/pennylane/ops/functions/map_wires.py`) -/

/-- Operators and measurement processes as wire-labelled syntax trees: a base
gate carries a name, parameter data and a wire list; a measurement process
carries a name and a wire list; composite operators are products and sums. -/
inductive PLOp where
  | base : String → List Int → List Int → PLOp
  | mp : String → List Int → PLOp
  | prod : PLOp → PLOp → PLOp
  | plus : PLOp → PLOp → PLOp
deriving DecidableEq, Repr

/-- Lookup in the wire map with identity fallback: `wire_map.get(w, w)`. -/
def wmGet (wire_map : List (Int × Int)) (w : Int) : Int :=
  match wire_map.find? (fun p => p.1 == w) with
  | some p => p.2
  | none => w

/-- Modelled from the spec: `Operator.map_wires` / `MeasurementProcess.map_wires`
(`pennylane/operation.py` and `pennylane/measurements/measurements.py`, not
under `src/`) — "a simple recursive substitution" of each wire label through
the wire map, leaving unmapped labels unchanged and building a new object. -/
def PLOp.map_wires (wire_map : List (Int × Int)) : PLOp → PLOp
  | .base n d ws => .base n d (ws.map (wmGet wire_map))
  | .mp n ws => .mp n (ws.map (wmGet wire_map))
  | .prod a b => .prod (a.map_wires wire_map) (b.map_wires wire_map)
  | .plus a b => .plus (a.map_wires wire_map) (b.map_wires wire_map)

/-- All wire labels of an operator tree, left to right. -/
def PLOp.wires : PLOp → List Int
  | .base _ _ ws => ws
  | .mp _ ws => ws
  | .prod a b => a.wires ++ b.wires
  | .plus a b => a.wires ++ b.wires

/-- The wire-free skeleton of an operator tree: names, parameter data and
structure with every wire list erased. -/
def PLOp.skeleton : PLOp → PLOp
  | .base n d _ => .base n d []
  | .mp n _ => .mp n []
  | .prod a b => .prod a.skeleton b.skeleton
  | .plus a b => .plus a.skeleton b.skeleton

/-- `qml.map_wires` for `Operator` / `MeasurementProcess` inputs: when
recording, compute the relabelled copy outside the queue, optionally remove the
input from the queue and optionally queue the copy; outside recording, return
`input.map_wires(wire_map)` directly.  The active queue is threaded explicitly
as a list of previously queued objects. -/
def map_wires (input : PLOp) (wire_map : List (Int × Int))
    (queue replace recording : Bool) (queued : List PLOp) : PLOp × List PLOp :=
  if recording then
    let new_op := input.map_wires wire_map
    let q1 := if replace then queued.filter (fun o => o ≠ input) else queued
    let q2 := if queue then q1 ++ [new_op] else q1
    (new_op, q2)
  else (input.map_wires wire_map, queued)

/-! ### Helper lemmas -/

theorem listModify_length (l : List α) (i : Nat) (f : α → α) :
    (listModify l i f).length = l.length := by
  induction l generalizing i with
  | nil => rfl
  | cons a as ih =>
    cases i with
    | zero => rfl
    | succ n => simpa [listModify] using ih n

theorem listModify_getElem_self (l : List α) (i : Nat) (f : α → α) :
    (listModify l i f)[i]? = (l[i]?).map f := by
  induction l generalizing i with
  | nil => simp [listModify]
  | cons a as ih =>
    cases i with
    | zero => simp [listModify]
    | succ n => simpa [listModify] using ih n

/-- One-step unfolding of a positive-step `range`: a nonempty range starts at
`start` and continues as the range from `start + step`. -/
theorem pyRange_cons_of_pos (start stop step : Int) (hstep : 0 < step)
    (hlt : start < stop) :
    pyRange start stop step = start :: pyRange (start + step) stop step := by
  have hne : step ≠ 0 := by omega
  have hb : (0:Int) ≤ stop - (start + step) + step - 1 := by omega
  have hkey : stop - start + step - 1 = (stop - (start + step) + step - 1) + 1 * step := by ring
  have hdiv : (stop - start + step - 1) / step
      = (stop - (start + step) + step - 1) / step + 1 := by
    rw [hkey, Int.add_mul_ediv_right _ _ hne]
  have hq : (0:Int) ≤ (stop - (start + step) + step - 1) / step :=
    Int.ediv_nonneg hb (le_of_lt hstep)
  have hlen : rangeLen start stop step = rangeLen (start + step) stop step + 1 := by
    unfold rangeLen
    rw [if_pos hstep, if_pos hstep, hdiv, Int.toNat_add hq (by omega)]
    rfl
  unfold pyRange
  rw [hlen, List.range_succ_eq_map]
  rw [List.map_cons, List.map_map]
  congr 1
  · push_cast
    ring
  · apply List.map_congr_left
    intro j _
    simp only [Function.comp_apply]
    push_cast
    ring

/-- A positive-step `range` whose start has reached the stop is empty. -/
theorem pyRange_nil_of_pos (start stop step : Int) (hstep : 0 < step)
    (hle : stop ≤ start) : pyRange start stop step = [] := by
  have h1 : stop - start + step - 1 ≤ step - 1 := by omega
  have h2 : (stop - start + step - 1) / step ≤ (step - 1) / step :=
    Int.ediv_le_ediv hstep h1
  have h3 : (step - 1) / step = 0 := Int.ediv_eq_zero_of_lt (by omega) (by omega)
  have h4 : rangeLen start stop step = 0 := by
    unfold rangeLen
    rw [if_pos hstep]
    exact Int.toNat_of_nonpos (by omega)
  unfold pyRange
  rw [h4]
  rfl

/-- One-step unfolding of a negative-step `range`. -/
theorem pyRange_cons_of_neg (start stop step : Int) (hstep : step < 0)
    (hlt : stop < start) :
    pyRange start stop step = start :: pyRange (start + step) stop step := by
  have hne : -step ≠ 0 := by omega
  have hb : (0:Int) ≤ (start + step) - stop + (-step) - 1 := by omega
  have hkey : start - stop + (-step) - 1
      = ((start + step) - stop + (-step) - 1) + 1 * (-step) := by ring
  have hdiv : (start - stop + (-step) - 1) / (-step)
      = ((start + step) - stop + (-step) - 1) / (-step) + 1 := by
    rw [hkey, Int.add_mul_ediv_right _ _ hne]
  have hq : (0:Int) ≤ ((start + step) - stop + (-step) - 1) / (-step) :=
    Int.ediv_nonneg hb (by omega)
  have hlen : rangeLen start stop step = rangeLen (start + step) stop step + 1 := by
    unfold rangeLen
    rw [if_neg (by omega), if_neg (by omega), hdiv, Int.toNat_add hq (by omega)]
    rfl
  unfold pyRange
  rw [hlen, List.range_succ_eq_map]
  rw [List.map_cons, List.map_map]
  congr 1
  · push_cast
    ring
  · apply List.map_congr_left
    intro j _
    simp only [Function.comp_apply]
    push_cast
    ring

/-- A negative-step `range` whose start has reached the stop is empty. -/
theorem pyRange_nil_of_neg (start stop step : Int) (hstep : step < 0)
    (hle : start ≤ stop) : pyRange start stop step = [] := by
  have h1 : start - stop + (-step) - 1 ≤ (-step) - 1 := by omega
  have h2 : (start - stop + (-step) - 1) / (-step) ≤ ((-step) - 1) / (-step) :=
    Int.ediv_le_ediv (by omega) h1
  have h3 : ((-step) - 1) / (-step) = 0 := Int.ediv_eq_zero_of_lt (by omega) (by omega)
  have h4 : rangeLen start stop step = 0 := by
    unfold rangeLen
    rw [if_neg (by omega)]
    exact Int.toNat_of_nonpos (by omega)
  unfold pyRange
  rw [h4]
  rfl

/-- An empty range for `start == stop` at every nonzero step. -/
theorem pyRange_self (start step : Int) (hstep : step ≠ 0) :
    pyRange start start step = [] := by
  rcases lt_or_gt_of_ne hstep with h | h
  · exact pyRange_nil_of_neg start start step h le_rfl
  · exact pyRange_nil_of_pos start start step h le_rfl

/-! ### Reference (spec-side) definitions used to state refinement claims -/

/-- Classical iteration as the spec words it: for each index in turn, evaluate
the body in a child frame with inputs `(constants, i, *carried)` and thread the
outputs as the next carried arguments. -/
def classicalFor (ev : EvalFn Q) (self : DefaultQubitInterpreter) (body : Nat)
    (consts : List Val) : List Int → List Val → Machine Q → List Val × Machine Q
  | [], carried, m => (carried, m)
  | i :: is, carried, m =>
    let r := ev (copyInterp self) body consts (Val.i i :: carried) m
    classicalFor ev self body consts is r.1 r.2

/-- The spec's branch-selection rule: the first tuple whose predicate is truthy
and whose body is present. -/
def firstLiveBranch : List (Val × Option Nat × PySlice) → Option (Nat × PySlice)
  | [] => none
  | (pred, jx, cs) :: rest =>
    match jx, pred.truthy with
    | some j, true => some (j, cs)
    | _, _ => firstLiveBranch rest

/-- A concrete body semantics used to observe Box sharing: each child frame
drops the loop index from its arguments and rewrites the state of the Box its
interpreter refers to through `g`. -/
def writeBoxState (g : Q → Q) : EvalFn Q := fun it _ _ args mm =>
  (args.drop 1,
   match it.stateref with
   | some r => { mm with boxes := listModify mm.boxes r (fun bx => { bx with state := g bx.state }) }
   | none => mm)

/-- Extraction of `measure_with_samples(...)[0]` from the sampler's result. -/
def headOutput : Except Err (List Val) → Except Err Val
  | .error e => .error e
  | .ok outs =>
    match outs.head? with
    | none => .error .indexError
    | some v => .ok v

/-! ### Claim theorems -/

/-- C3.  The Execution State Box is created lazily exactly once per top-level
invocation: `setup` allocates a single fresh Box (zero state from the
initializer, key from `initial_key`) only when no Box reference is present, and
is the identity for a child frame that already holds one; on completion
(`evalTop` = setup, run, cleanup) the Box reference is detached, the final key
read through the Box is persisted as `initial_key` for the next invocation, and
the final state is not persisted (no state is readable from the detached
interpreter). -/
theorem box_lifecycle (createIS : Nat → Q)
    (run : DefaultQubitInterpreter → Machine Q → List Val × Machine Q)
    (self : DefaultQubitInterpreter) (m : Machine Q) :
    (self.stateref = none →
      setup createIS self m =
        ({ self with stateref := some m.boxes.length },
         { m with boxes := m.boxes ++ [⟨createIS self.num_wires, self.initial_key⟩] }))
    ∧ (∀ r, self.stateref = some r → setup createIS self m = (self, m))
    ∧ (evalTop createIS run self m).2.1.stateref = none
    ∧ (evalTop createIS run self m).2.1.initial_key
        = DefaultQubitInterpreter.key (setup createIS self m).1
            (run (setup createIS self m).1 (setup createIS self m).2).2
    ∧ DefaultQubitInterpreter.state (evalTop createIS run self m).2.1
        (evalTop createIS run self m).2.2 = none := by
  refine ⟨?_, ?_, ?_, ?_, ?_⟩
  · intro h
    unfold setup
    rw [h]
  · intro r h
    unfold setup
    rw [h]
  · rfl
  · rfl
  · rfl

/-- Closed witness for `box_lifecycle`: on a concrete detached interpreter the
first `setup` allocates the Box, and on the resulting attached interpreter a
second `setup` is the identity. -/
theorem box_lifecycle_witness :
    setup (fun _ => (0 : Int)) ⟨2, none, 7, none⟩ ⟨[], true⟩ =
      (⟨2, none, 7, some 0⟩, ⟨[⟨0, 7⟩], true⟩)
    ∧ setup (fun _ => (0 : Int)) ⟨2, none, 7, some 0⟩ ⟨[⟨0, 7⟩], true⟩ =
      (⟨2, none, 7, some 0⟩, ⟨[⟨0, 7⟩], true⟩) := by
  constructor
  · exact (box_lifecycle (fun _ => (0 : Int)) (fun _ mm => ([], mm))
      ⟨2, none, 7, none⟩ ⟨[], true⟩).1 rfl
  · exact (box_lifecycle (fun _ => (0 : Int)) (fun _ mm => ([], mm))
      ⟨2, none, 7, some 0⟩ ⟨[⟨0, 7⟩], true⟩).2.1 0 rfl

/-- C9 (counterexample).  The claim says any access of the interpreter's state
or key with no Execution State Box present fails with a lifecycle error; but on
a concrete detached interpreter the `key` getter succeeds and serves the
persisted default `initial_key`, and the `state` getter succeeds and serves
`None`. -/
theorem getters_serve_defaults_when_detached :
    DefaultQubitInterpreter.key (⟨1, none, 42, none⟩ : DefaultQubitInterpreter)
        (⟨[], true⟩ : Machine Int) = 42
    ∧ DefaultQubitInterpreter.state (⟨1, none, 42, none⟩ : DefaultQubitInterpreter)
        (⟨[], true⟩ : Machine Int) = none := ⟨rfl, rfl⟩

/-- C9 (amended).  When no Execution State Box exists, any *mutation* of the
interpreter's state or key fails immediately with the state-lifecycle error
(`AttributeError("execution not yet initialized.")`), while *read* access is
served without failing: the state getter returns `None` and the key getter
returns the persisted `initial_key`. -/
theorem setters_fail_when_detached (self : DefaultQubitInterpreter)
    (m : Machine Q) (v : Q) (k : Key) (h : self.stateref = none) :
    self.setState v m = .error .executionNotInitialized
    ∧ self.setKey k m = .error .executionNotInitialized
    ∧ self.state m = none
    ∧ self.key m = self.initial_key := by
  refine ⟨?_, ?_, ?_, ?_⟩ <;> simp [setState, setKey, state, key, h]

/-- Closed witness for `setters_fail_when_detached` at a concrete detached
interpreter. -/
theorem setters_fail_when_detached_witness :
    DefaultQubitInterpreter.setState ⟨1, none, 42, none⟩ (5 : Int) ⟨[], true⟩
        = .error .executionNotInitialized
    ∧ DefaultQubitInterpreter.setKey ⟨1, none, 42, none⟩ 9 (⟨[], true⟩ : Machine Int)
        = .error .executionNotInitialized
    ∧ DefaultQubitInterpreter.state ⟨1, none, 42, none⟩ (⟨[], true⟩ : Machine Int) = none
    ∧ DefaultQubitInterpreter.key ⟨1, none, 42, none⟩ (⟨[], true⟩ : Machine Int) = 42 :=
  setters_fail_when_detached ⟨1, none, 42, none⟩ ⟨[], true⟩ 5 9 rfl

/-- A trivial concrete evaluator over integer states, used to instantiate
universally quantified evaluation collaborators in closed instances: it echoes
its arguments and leaves the machine untouched. -/
def idEval : EvalFn Int := fun _ _ _ args mm => (args, mm)

/-- One in-place rewrite of the state stored in heap cell `r`. -/
def writeStep (g : Q → Q) (r : Nat) (m : Machine Q) : Machine Q :=
  { m with boxes := listModify m.boxes r (fun bx => { bx with state := g bx.state }) }

theorem writeStep_getElem (g : Q → Q) (r : Nat) (n : Nat) (m : Machine Q)
    (s : Q) (k : Key) (h : m.boxes[r]? = some ⟨s, k⟩) :
    ((writeStep g r)^[n] m).boxes[r]? = some ⟨g^[n] s, k⟩ := by
  induction n generalizing m s with
  | zero => simpa using h
  | succ n ih =>
    rw [Function.iterate_succ_apply, Function.iterate_succ_apply]
    have hstep : (writeStep g r m).boxes[r]? = some ⟨g s, k⟩ := by
      unfold writeStep
      simp [listModify_getElem_self, h]
    exact ih (writeStep g r m) (g s) hstep

theorem writeStep_length (g : Q → Q) (r : Nat) (n : Nat) (m : Machine Q) :
    ((writeStep g r)^[n] m).boxes.length = m.boxes.length := by
  induction n generalizing m with
  | zero => rfl
  | succ n ih =>
    rw [Function.iterate_succ_apply]
    rw [ih]
    exact listModify_length m.boxes r _

theorem writeBoxState_foldl (g : Q → Q) (self : DefaultQubitInterpreter)
    (r : Nat) (h : self.stateref = some r) (jb : Nat) (consts : List Val)
    (l : List Int) :
    ∀ (init : List Val) (m : Machine Q),
      List.foldl
        (fun acc i => writeBoxState g (copyInterp self) jb consts (Val.i i :: acc.1) acc.2)
        (init, m) l
      = (init, (writeStep g r)^[l.length] m) := by
  induction l with
  | nil => intro init m; rfl
  | cons i is ih =>
    intro init m
    rw [List.foldl_cons]
    have hstep :
        writeBoxState g (copyInterp self) jb consts (Val.i i :: init) m
          = (init, writeStep g r m) := by
      unfold writeBoxState copyInterp writeStep
      rw [h]
      simp
    rw [hstep, ih]
    rw [List.length_cons, Function.iterate_succ_apply]

theorem pyRange_length_unit (n : Nat) : (pyRange 0 (n : Int) 1).length = n := by
  have hlen : rangeLen 0 (n : Int) 1 = n := by
    unfold rangeLen
    rw [if_pos (by norm_num)]
    norm_num
  unfold pyRange
  rw [hlen]
  simp

theorem while_go_congr (ev evB : EvalFn Q) (self : DefaultQubitInterpreter)
    (jb jc : Nat) (cb cc : List Val)
    (h : ∀ jx c a mm, evB (copyInterp self) jx c a mm = ev (copyInterp self) jx c a mm) :
    ∀ (fuel : Nat) (res : List Val) (m : Machine Q),
      while_go evB self jb jc cb cc fuel res m = while_go ev self jb jc cb cc fuel res m := by
  intro fuel
  induction fuel with
  | zero => intro res m; rfl
  | succ fuel ih =>
    intro res m
    simp only [while_go, h, ih]

theorem cond_go_congr (ev evB : EvalFn Q) (self : DefaultQubitInterpreter)
    (invals args : List Val) (m : Machine Q)
    (h : ∀ jx c a mm, evB (copyInterp self) jx c a mm = ev (copyInterp self) jx c a mm) :
    ∀ l, cond_go evB self invals args m l = cond_go ev self invals args m l := by
  intro l
  induction l with
  | nil => rfl
  | cons t rest ih =>
    obtain ⟨pred, jx, cs⟩ := t
    cases jx with
    | none => simpa [cond_go] using ih
    | some j =>
      cases hp : pred.truthy with
      | false => simpa [cond_go, hp] using ih
      | true => simp [cond_go, hp, h]

/-- C1.  Every child frame spawned by the for-loop, while-loop and conditional
handlers shares the parent frame's Execution State Box: `copy` preserves the
`stateref` reference; in each of the three handlers, forcibly resetting every
child interpreter's `stateref` to the parent's changes nothing (each child is a
copy already referencing the same Box, and no handler replaces or re-creates
it); and with a body semantics that rewrites the state of whichever Box its
frame references, an `n`-iteration loop accumulates all `n` mutations in the
parent's Box — each iteration sees the previous iterations' writes, the heap
gains no new Box, and the parent reads the final value through its own
`stateref` after the loop returns. -/
theorem child_frames_share_box (Q : Type) (self : DefaultQubitInterpreter) :
    (copyInterp self).stateref = self.stateref
    ∧ (∀ (ev : EvalFn Q) start stop step invals jb cs as m,
        for_loop_prim_handler ev self start stop step invals jb cs as m
          = for_loop_prim_handler
              (fun it jx c a mm => ev { it with stateref := self.stateref } jx c a mm)
              self start stop step invals jb cs as m)
    ∧ (∀ (ev : EvalFn Q) fuel invals jb jc bs cs as m,
        while_loop_prim_handler ev fuel self invals jb jc bs cs as m
          = while_loop_prim_handler
              (fun it jx c a mm => ev { it with stateref := self.stateref } jx c a mm)
              fuel self invals jb jc bs cs as m)
    ∧ (∀ (ev : EvalFn Q) invals branches css asl m,
        cond_prim_handler ev self invals branches css asl m
          = cond_prim_handler
              (fun it jx c a mm => ev { it with stateref := self.stateref } jx c a mm)
              self invals branches css asl m)
    ∧ (∀ (g : Q → Q) r s k (m : Machine Q) (n : Nat) invals jb cs as,
        self.stateref = some r → m.boxes[r]? = some ⟨s, k⟩ →
        ∃ mf, for_loop_prim_handler (writeBoxState g) self 0 (n : Int) 1 invals jb cs as m
            = .ok (applySlice invals as, mf)
          ∧ self.state mf = some (g^[n] s)
          ∧ mf.boxes.length = m.boxes.length) := by
  refine ⟨rfl, ?_, ?_, ?_, ?_⟩
  · intro ev start stop step invals jb cs as m
    rfl
  · intro ev fuel invals jb jc bs cs as m
    exact (while_go_congr ev
      (fun it jx c a mm => ev { it with stateref := self.stateref } jx c a mm)
      self jb jc (applySlice invals bs) (applySlice invals cs)
      (fun _ _ _ _ => rfl) fuel (applySlice invals as) m).symm
  · intro ev invals branches css asl m
    exact (cond_go_congr ev
      (fun it jx c a mm => ev { it with stateref := self.stateref } jx c a mm)
      self invals (applySlice invals asl) m (fun _ _ _ _ => rfl)
      (zip3 (invals.take branches.length) branches css)).symm
  · intro g r s k m n invals jb cs as href hbox
    refine ⟨(writeStep g r)^[n] m, ?_, ?_, ?_⟩
    · simp only [for_loop_prim_handler]
      rw [if_neg (by norm_num : ¬(1 : Int) = 0)]
      rw [writeBoxState_foldl g self r href jb (applySlice invals cs)
        (pyRange 0 (n : Int) 1) (applySlice invals as) m]
      rw [pyRange_length_unit]
    · simp only [DefaultQubitInterpreter.state, href]
      rw [writeStep_getElem g r n m s k hbox]
      rfl
    · exact writeStep_length g r n m

/-- Closed witness for `child_frames_share_box`: a two-iteration loop over a
single shared Box starting at state `0` leaves the parent reading state `2`
after the loop — both increments landed in the same Box. -/
theorem child_frames_share_box_witness :
    ∃ mf, for_loop_prim_handler (writeBoxState (fun q => q + 1))
        ⟨1, none, 0, some 0⟩ 0 (2 : Int) 1 [] 0 ⟨0, none⟩ ⟨0, none⟩
        (⟨[⟨(0 : Int), 0⟩], true⟩ : Machine Int)
        = .ok ([], mf)
      ∧ DefaultQubitInterpreter.state ⟨1, none, 0, some 0⟩ mf
          = some ((fun q => q + 1)^[2] (0 : Int))
      ∧ mf.boxes.length = 1 :=
  (child_frames_share_box Int ⟨1, none, 0, some 0⟩).2.2.2.2
    (fun q => q + 1) 0 0 0 ⟨[⟨0, 0⟩], true⟩ 2 [] 0 ⟨0, none⟩ ⟨0, none⟩ rfl rfl

theorem foldl_eq_classicalFor (ev : EvalFn Q) (self : DefaultQubitInterpreter)
    (body : Nat) (consts : List Val) :
    ∀ (l : List Int) (carried : List Val) (m : Machine Q),
      List.foldl (fun acc i => ev (copyInterp self) body consts (Val.i i :: acc.1) acc.2)
        (carried, m) l
      = classicalFor ev self body consts l carried m := by
  intro l
  induction l with
  | nil => intro carried m; rfl
  | cons i is ih =>
    intro carried m
    rw [List.foldl_cons]
    exact ih (ev (copyInterp self) body consts (Val.i i :: carried) m).1
      (ev (copyInterp self) body consts (Val.i i :: carried) m).2

/-- C2 (amended).  For every nonzero step the bounded-loop handler is
semantically equivalent to classical iteration: it folds the body over the
Python range, evaluating the body in a child frame with inputs
`(constants, i, *carried)` and threading the outputs as the next carried
arguments; the range obeys the classical unfolding laws (head `start`,
continuation from `start + step`, empty once the stop side is reached), and any
empty range — in particular `start == stop` — returns the initial carried
arguments with the machine untouched (no randomness consumed, no child
evaluated).  A step of zero is not a no-op: it raises the `range` error. -/
theorem for_loop_classical_iteration (ev : EvalFn Q) (self : DefaultQubitInterpreter)
    (start stop step : Int) (invals : List Val) (jb : Nat) (cs as : PySlice)
    (m : Machine Q) :
    (step ≠ 0 →
      for_loop_prim_handler ev self start stop step invals jb cs as m
        = .ok (classicalFor ev self jb (applySlice invals cs) (pyRange start stop step)
            (applySlice invals as) m))
    ∧ (0 < step → start < stop →
        pyRange start stop step = start :: pyRange (start + step) stop step)
    ∧ (0 < step → stop ≤ start → pyRange start stop step = [])
    ∧ (step < 0 → stop < start →
        pyRange start stop step = start :: pyRange (start + step) stop step)
    ∧ (step < 0 → start ≤ stop → pyRange start stop step = [])
    ∧ (step ≠ 0 → pyRange start stop step = [] →
        for_loop_prim_handler ev self start stop step invals jb cs as m
          = .ok (applySlice invals as, m))
    ∧ (step ≠ 0 → start = stop →
        for_loop_prim_handler ev self start stop step invals jb cs as m
          = .ok (applySlice invals as, m))
    ∧ (step = 0 →
        for_loop_prim_handler ev self start stop step invals jb cs as m
          = .error .rangeZeroStep) := by
  refine ⟨?_, pyRange_cons_of_pos start stop step, pyRange_nil_of_pos start stop step,
    pyRange_cons_of_neg start stop step, pyRange_nil_of_neg start stop step, ?_, ?_, ?_⟩
  · intro h
    simp only [for_loop_prim_handler]
    rw [if_neg h]
    rw [foldl_eq_classicalFor ev self jb (applySlice invals cs) (pyRange start stop step)
      (applySlice invals as) m]
  · intro h hnil
    simp only [for_loop_prim_handler]
    rw [if_neg h, hnil]
    rfl
  · intro h he
    subst he
    simp only [for_loop_prim_handler]
    rw [if_neg h, pyRange_self start step h]
    rfl
  · intro h
    simp only [for_loop_prim_handler]
    rw [if_pos h]

/-- C2 (counterexample).  At the concrete input `start=0, stop=5, step=0` the
bounded-loop handler raises the zero-step range error instead of returning the
initial carried arguments unchanged, falsifying the claim that a step of zero
is a valid no-op. -/
theorem for_loop_zero_step_raises :
    for_loop_prim_handler idEval ⟨1, none, 0, some 0⟩ 0 5 0 [] 0 ⟨0, none⟩ ⟨0, none⟩
        (⟨[⟨0, 0⟩], true⟩ : Machine Int) = .error .rangeZeroStep
    ∧ for_loop_prim_handler idEval ⟨1, none, 0, some 0⟩ 0 5 0 [] 0 ⟨0, none⟩ ⟨0, none⟩
        (⟨[⟨0, 0⟩], true⟩ : Machine Int) ≠ .ok ([], ⟨[⟨0, 0⟩], true⟩) := by
  constructor
  · rfl
  · exact fun h => Except.noConfusion h

/-- Closed witness for `for_loop_classical_iteration`: a `start == stop` loop
over a concrete interpreter returns the initial carried arguments and leaves
the machine untouched. -/
theorem for_loop_classical_iteration_witness :
    for_loop_prim_handler idEval ⟨1, none, 0, some 0⟩ 3 3 1 [] 0 ⟨0, none⟩ ⟨0, none⟩
        (⟨[⟨0, 0⟩], true⟩ : Machine Int) = .ok ([], ⟨[⟨0, 0⟩], true⟩) :=
  (for_loop_classical_iteration idEval ⟨1, none, 0, some 0⟩ 3 3 1 [] 0 ⟨0, none⟩
    ⟨0, none⟩ ⟨[⟨0, 0⟩], true⟩).2.2.2.2.2.2.1 (by norm_num) rfl

/-- A concrete condition semantics whose first output is always falsy. -/
def falseCond : EvalFn Int := fun _ _ _ _ mm => ([Val.b false], mm)

/-- C5.  The conditional-loop handler evaluates the condition sub-program in a
child frame before each iteration: when the condition's first output is falsy
on the very first check the handler stops at once, returning the initial
carried arguments with only the condition evaluation's machine effects (the
body is never evaluated — the result is the same for every semantics agreeing
with `ev` on the condition sub-program, whatever it does on the body); and when
a check is truthy, one body evaluation in a child frame precedes the next
condition check. -/
theorem while_loop_zero_trip (ev : EvalFn Q) (self : DefaultQubitInterpreter)
    (invals : List Val) (jb jc : Nat) (bs cs as : PySlice) (m : Machine Q) (v : Val)
    (hhead : (ev (copyInterp self) jc (applySlice invals cs) (applySlice invals as) m).1.head?
      = some v)
    (hfalse : v.truthy = false) :
    (∀ fuel, while_loop_prim_handler ev (fuel + 1) self invals jb jc bs cs as m
        = some (.ok (applySlice invals as,
            (ev (copyInterp self) jc (applySlice invals cs) (applySlice invals as) m).2)))
    ∧ (∀ evB : EvalFn Q,
        (∀ a mm, evB (copyInterp self) jc (applySlice invals cs) a mm
            = ev (copyInterp self) jc (applySlice invals cs) a mm) →
        ∀ fuel, while_loop_prim_handler evB (fuel + 1) self invals jb jc bs cs as m
          = while_loop_prim_handler ev (fuel + 1) self invals jb jc bs cs as m)
    ∧ (∀ fuel res mm w,
        (ev (copyInterp self) jc (applySlice invals cs) res mm).1.head? = some w →
        w.truthy = true →
        while_go ev self jb jc (applySlice invals bs) (applySlice invals cs) (fuel + 1) res mm
          = while_go ev self jb jc (applySlice invals bs) (applySlice invals cs) fuel
              (ev (copyInterp self) jb (applySlice invals bs) res
                (ev (copyInterp self) jc (applySlice invals cs) res mm).2).1
              (ev (copyInterp self) jb (applySlice invals bs) res
                (ev (copyInterp self) jc (applySlice invals cs) res mm).2).2) := by
  refine ⟨?_, ?_, ?_⟩
  · intro fuel
    simp only [while_loop_prim_handler, while_go, hhead, hfalse]
    rfl
  · intro evB hagree fuel
    simp only [while_loop_prim_handler, while_go, hagree, hhead, hfalse]
    rfl
  · intro fuel res mm w hw htrue
    simp only [while_go, hw, htrue]
    rfl

/-- Closed witness for `while_loop_zero_trip`: with a concrete always-false
condition and any fuel, the handler returns the initial carried arguments
unchanged and the sentinel machine is not mutated by any body. -/
theorem while_loop_zero_trip_witness :
    while_loop_prim_handler falseCond 5 ⟨1, none, 0, some 0⟩ [] 0 1 ⟨0, none⟩ ⟨0, none⟩
        ⟨0, none⟩ (⟨[⟨0, 0⟩], true⟩ : Machine Int)
      = some (.ok ([], ⟨[⟨0, 0⟩], true⟩)) :=
  (while_loop_zero_trip falseCond ⟨1, none, 0, some 0⟩ [] 0 1 ⟨0, none⟩ ⟨0, none⟩
    ⟨0, none⟩ ⟨[⟨0, 0⟩], true⟩ (Val.b false) rfl rfl).1 4

theorem cond_go_eq_firstLiveBranch (ev : EvalFn Q) (self : DefaultQubitInterpreter)
    (invals args : List Val) (m : Machine Q) :
    ∀ l, cond_go ev self invals args m l
      = match firstLiveBranch l with
        | some (j, cs) => ev (copyInterp self) j (applySlice invals cs) args m
        | none => ([], m) := by
  intro l
  induction l with
  | nil => rfl
  | cons t rest ih =>
    obtain ⟨pred, jx, cs⟩ := t
    cases jx with
    | none => simpa [cond_go, firstLiveBranch] using ih
    | some j =>
      cases hp : pred.truthy with
      | false => simpa [cond_go, firstLiveBranch, hp] using ih
      | true => simp [cond_go, firstLiveBranch, hp]

/-- A concrete branch semantics that reports which sub-program ran: it returns
the branch's jaxpr identifier as its single output. -/
def tagEval : EvalFn Int := fun _ jx _ _ mm => ([Val.i (Int.ofNat jx)], mm)

/-- C6.  The multi-way-branch handler evaluates exactly the first branch whose
predicate is truthy and whose body is present, in a child frame with inputs
`(constants, *shared arguments)`, and returns that body's outputs; when no
predicate is true (or every true predicate's body is absent) it returns the
empty output tuple with the machine untouched; and the result depends on the
evaluation semantics only at the selected branch — branches after it are never
evaluated even if their predicates are also true. -/
theorem cond_first_true_branch (ev : EvalFn Q) (self : DefaultQubitInterpreter)
    (invals : List Val) (jaxpr_branches : List (Option Nat))
    (consts_slices : List PySlice) (args_slice : PySlice) (m : Machine Q) :
    (∀ j cs,
      firstLiveBranch (zip3 (invals.take jaxpr_branches.length) jaxpr_branches consts_slices)
        = some (j, cs) →
      cond_prim_handler ev self invals jaxpr_branches consts_slices args_slice m
        = ev (copyInterp self) j (applySlice invals cs) (applySlice invals args_slice) m)
    ∧ (firstLiveBranch (zip3 (invals.take jaxpr_branches.length) jaxpr_branches consts_slices)
        = none →
      cond_prim_handler ev self invals jaxpr_branches consts_slices args_slice m = ([], m))
    ∧ (∀ evB : EvalFn Q,
        (∀ j cs,
          firstLiveBranch (zip3 (invals.take jaxpr_branches.length) jaxpr_branches consts_slices)
            = some (j, cs) →
          evB (copyInterp self) j (applySlice invals cs) (applySlice invals args_slice) m
            = ev (copyInterp self) j (applySlice invals cs) (applySlice invals args_slice) m) →
        cond_prim_handler evB self invals jaxpr_branches consts_slices args_slice m
          = cond_prim_handler ev self invals jaxpr_branches consts_slices args_slice m) := by
  refine ⟨?_, ?_, ?_⟩
  · intro j cs h
    simp only [cond_prim_handler, cond_go_eq_firstLiveBranch, h]
  · intro h
    simp only [cond_prim_handler, cond_go_eq_firstLiveBranch, h]
  · intro evB hagree
    simp only [cond_prim_handler, cond_go_eq_firstLiveBranch]
    cases h : firstLiveBranch
        (zip3 (invals.take jaxpr_branches.length) jaxpr_branches consts_slices) with
    | none => rfl
    | some t => exact hagree t.1 t.2 (by rw [h])

/-- Closed witness for `cond_first_true_branch`: with predicates
`[False, True, True]` the handler runs exactly the second branch's body — the
reporting semantics returns that branch's identifier `20`, not the third
branch's `30`. -/
theorem cond_first_true_branch_witness :
    cond_prim_handler tagEval ⟨1, none, 0, some 0⟩
        [Val.b false, Val.b true, Val.b true] [some 10, some 20, some 30]
        [⟨0, some 0⟩, ⟨0, some 0⟩, ⟨0, some 0⟩] ⟨3, none⟩
        (⟨[⟨0, 0⟩], true⟩ : Machine Int)
      = ([Val.i 20], ⟨[⟨0, 0⟩], true⟩) :=
  (cond_first_true_branch tagEval ⟨1, none, 0, some 0⟩
    [Val.b false, Val.b true, Val.b true] [some 10, some 20, some 30]
    [⟨0, some 0⟩, ⟨0, some 0⟩, ⟨0, some 0⟩] ⟨3, none⟩ ⟨[⟨0, 0⟩], true⟩).1
    20 ⟨0, some 0⟩ rfl

theorem key_eq_of_box (self : DefaultQubitInterpreter) (m : Machine Q) (r : Nat)
    (s : Q) (k : Key) (href : self.stateref = some r)
    (hbox : m.boxes[r]? = some ⟨s, k⟩) : self.key m = k := by
  simp [DefaultQubitInterpreter.key, href, hbox]

theorem state_eq_of_box (self : DefaultQubitInterpreter) (m : Machine Q) (r : Nat)
    (s : Q) (k : Key) (href : self.stateref = some r)
    (hbox : m.boxes[r]? = some ⟨s, k⟩) : self.state m = some s := by
  simp [DefaultQubitInterpreter.state, href, hbox]

theorem setKey_eq_of_ref (self : DefaultQubitInterpreter) (v : Key) (m : Machine Q)
    (r : Nat) (href : self.stateref = some r) :
    self.setKey v m
      = .ok { m with boxes := listModify m.boxes r (fun bx => { bx with key := v }) } := by
  simp [setKey, href]

theorem setState_eq_of_ref (self : DefaultQubitInterpreter) (v : Q) (m : Machine Q)
    (r : Nat) (href : self.stateref = some r) :
    self.setState v m
      = .ok { m with boxes := listModify m.boxes r (fun bx => { bx with state := v }) } := by
  simp [setState, href]

/-- C4.  The mid-computation measurement handler splits the Box's current key
into exactly two keys, retains the first as the Box's new key, and hands the
second to the operation-application collaborator to sample and project/reset
the state, binding the recorded outcome as the equation's output; the heap
gains no Box, the parent reads the advanced key through the shared Box, and in
the concrete split model the retained and consumed keys are fresh and the
sampling keys of two successive measurements differ — so with a fixed initial
key the outcome pair is the explicit (deterministic) image of the state and
key, reproducible across runs. -/
theorem measure_splits_key (applyMCM : List Val → Bool → Option Int → Q → Key → Q × Val)
    (self : DefaultQubitInterpreter) (invals : List Val) (reset : Bool)
    (postselect : Option Int) (m : Machine Q) (r : Nat) (s : Q) (k : Key)
    (href : self.stateref = some r) (hbox : m.boxes[r]? = some ⟨s, k⟩) :
    ∃ m1,
      measure_prim_handler applyMCM self invals reset postselect m
        = .ok ((applyMCM invals reset postselect s (prngSplit k).2).2, m1)
      ∧ m1.boxes[r]?
          = some ⟨(applyMCM invals reset postselect s (prngSplit k).2).1, (prngSplit k).1⟩
      ∧ m1.boxes.length = m.boxes.length
      ∧ self.key m1 = (prngSplit k).1
      ∧ (prngSplit k).1 ≠ k ∧ (prngSplit k).2 ≠ k
      ∧ (prngSplit k).1 ≠ (prngSplit k).2
      ∧ (prngSplit k).2 ≠ (prngSplit (prngSplit k).1).2 := by
  have hmid : (listModify m.boxes r (fun bx => { bx with key := (prngSplit k).1 }))[r]?
      = some ⟨s, (prngSplit k).1⟩ := by
    rw [listModify_getElem_self, hbox]
    rfl
  have hfin : (listModify (listModify m.boxes r (fun bx => { bx with key := (prngSplit k).1 }))
      r (fun bx => { bx with state := (applyMCM invals reset postselect s (prngSplit k).2).1 }))[r]?
      = some ⟨(applyMCM invals reset postselect s (prngSplit k).2).1, (prngSplit k).1⟩ := by
    rw [listModify_getElem_self, hmid]
    rfl
  refine ⟨⟨listModify (listModify m.boxes r (fun bx => { bx with key := (prngSplit k).1 }))
      r (fun bx => { bx with state := (applyMCM invals reset postselect s (prngSplit k).2).1 }),
      m.captureEnabled⟩, ?_, hfin, ?_, ?_, ?_, ?_, ?_, ?_⟩
  · simp only [measure_prim_handler, key_eq_of_box self m r s k href hbox,
      setKey_eq_of_ref self (prngSplit k).1 m r href]
    simp only [state_eq_of_box self
      (⟨listModify m.boxes r (fun bx => { bx with key := (prngSplit k).1 }),
        m.captureEnabled⟩ : Machine Q) r s (prngSplit k).1 href hmid,
      setState_eq_of_ref self (applyMCM invals reset postselect s (prngSplit k).2).1
        (⟨listModify m.boxes r (fun bx => { bx with key := (prngSplit k).1 }),
          m.captureEnabled⟩ : Machine Q) r href]
  · rw [listModify_length, listModify_length]
  · exact key_eq_of_box self
      (⟨listModify (listModify m.boxes r (fun bx => { bx with key := (prngSplit k).1 }))
        r (fun bx => { bx with state := (applyMCM invals reset postselect s (prngSplit k).2).1 }),
        m.captureEnabled⟩ : Machine Q) r
      (applyMCM invals reset postselect s (prngSplit k).2).1 (prngSplit k).1 href hfin
  · show (2 * k + 1 : Nat) ≠ k
    omega
  · show (2 * k + 2 : Nat) ≠ k
    omega
  · show (2 * k + 1 : Nat) ≠ 2 * k + 2
    omega
  · show (2 * k + 2 : Nat) ≠ 2 * (2 * k + 1) + 2
    omega

/-- A concrete operation-application collaborator for mid-computation
measurements over integer states: the new state adds the sampling key, and the
recorded outcome reports the sampling key it received. -/
def mcmApply : List Val → Bool → Option Int → Int → Key → Int × Val :=
  fun _ _ _ s kk => (s + Int.ofNat kk, Val.i (Int.ofNat kk))

/-- Closed witness for `measure_splits_key`: on a concrete Box with key `5`,
the handler retains key `11 = fst (split 5)` in the Box and samples with
`12 = snd (split 5)`, and a successive measurement would sample with
`snd (split 11) = 24 ≠ 12`. -/
theorem measure_splits_key_witness :
    ∃ m1,
      measure_prim_handler mcmApply ⟨1, none, 0, some 0⟩ [] false none
          (⟨[⟨(0 : Int), 5⟩], true⟩ : Machine Int)
        = .ok ((mcmApply [] false none 0 (prngSplit 5).2).2, m1)
      ∧ m1.boxes[0]? = some ⟨(mcmApply [] false none 0 (prngSplit 5).2).1, (prngSplit 5).1⟩
      ∧ m1.boxes.length = 1
      ∧ DefaultQubitInterpreter.key ⟨1, none, 0, some 0⟩ m1 = (prngSplit 5).1
      ∧ (prngSplit 5).1 ≠ 5 ∧ (prngSplit 5).2 ≠ 5
      ∧ (prngSplit 5).1 ≠ (prngSplit 5).2
      ∧ (prngSplit 5).2 ≠ (prngSplit (prngSplit 5).1).2 :=
  measure_splits_key mcmApply ⟨1, none, 0, some 0⟩ [] false none
    ⟨[⟨0, 5⟩], true⟩ 0 0 5 rfl rfl

/-- C7.  The terminal measurement handler selects its mode solely from the
shots configuration: with shots unset it returns the analytic collaborator's
statistic of the current state, consuming no key (the Box heap is returned
untouched); with a finite shot count it splits the Box's key, retains the
first half in the Box, and draws the batch with the second half by calling the
sampler on the singleton list `[measurement]` (its own batch, not grouped with
other measurements), taking element `0` of the result; and a successive
shot-based measurement would sample with a different split key. -/
theorem terminal_measurement_modes (mF : Meas → Q → Bool → Except Err Val)
    (mwsF : List Meas → Q → Nat → Key → Bool → Except Err (List Val))
    (self : DefaultQubitInterpreter) (mmt : Meas) (m : Machine Q) (r : Nat)
    (s : Q) (k : Key)
    (href : self.stateref = some r) (hbox : m.boxes[r]? = some ⟨s, k⟩) :
    (self.shots = none →
      interpret_measurement mF mwsF self mmt m
        = (mF mmt s false, { m with captureEnabled := true }))
    ∧ (∀ ns, self.shots = some ns →
        ∃ m1,
          interpret_measurement mF mwsF self mmt m
            = (headOutput (mwsF [mmt] s ns (prngSplit k).2 false),
               { m1 with captureEnabled := true })
          ∧ m1.boxes[r]? = some ⟨s, (prngSplit k).1⟩
          ∧ m1.boxes.length = m.boxes.length
          ∧ self.key m1 = (prngSplit k).1)
    ∧ (prngSplit k).2 ≠ (prngSplit (prngSplit k).1).2 := by
  have hbox0 : ({ m with captureEnabled := false } : Machine Q).boxes[r]? = some ⟨s, k⟩ := hbox
  refine ⟨?_, ?_, ?_⟩
  · intro hsh
    simp only [interpret_measurement, hsh,
      state_eq_of_box self _ r s k href hbox0]
    cases hres : mF mmt s false with
    | error e => rfl
    | ok v => rfl
  · intro ns hsh
    have hmid : (listModify m.boxes r (fun bx => { bx with key := (prngSplit k).1 }))[r]?
        = some ⟨s, (prngSplit k).1⟩ := by
      rw [listModify_getElem_self, hbox]
      rfl
    refine ⟨⟨listModify m.boxes r (fun bx => { bx with key := (prngSplit k).1 }), false⟩,
      ?_, hmid, ?_, ?_⟩
    · simp only [interpret_measurement, hsh,
        key_eq_of_box self ({ m with captureEnabled := false } : Machine Q) r s k href hbox0,
        setKey_eq_of_ref self (prngSplit k).1 ({ m with captureEnabled := false } : Machine Q) r href,
        state_eq_of_box self
          (⟨listModify m.boxes r (fun bx => { bx with key := (prngSplit k).1 }), false⟩ : Machine Q)
          r s (prngSplit k).1 href hmid]
      cases hres : mwsF [mmt] s ns (prngSplit k).2 false with
      | error e => rfl
      | ok outs =>
        cases houts : outs.head? with
        | none => simp [headOutput, hres, houts]
        | some v => simp [headOutput, hres, houts]
    · exact listModify_length m.boxes r _
    · exact key_eq_of_box self
        (⟨listModify m.boxes r (fun bx => { bx with key := (prngSplit k).1 }), false⟩ : Machine Q)
        r s (prngSplit k).1 href hmid
  · show (2 * k + 2 : Nat) ≠ 2 * (2 * k + 1) + 2
    omega

/-- A concrete analytic-measurement collaborator over integer states: it
returns the state itself as the statistic. -/
def measA : Unit → Int → Bool → Except Err Val := fun _ s _ => .ok (Val.i s)

/-- A concrete shot-sampling collaborator over integer states: it reports the
sampling key it received. -/
def measS : List Unit → Int → Nat → Key → Bool → Except Err (List Val) :=
  fun _ _ _ kk _ => .ok [Val.i (Int.ofNat kk)]

/-- Closed witness for `terminal_measurement_modes`: an analytic interpreter
computes the statistic with the heap untouched, and a 100-shot interpreter on a
Box with key `5` samples with `snd (split 5) = 12` and retains `11`. -/
theorem terminal_measurement_modes_witness :
    interpret_measurement measA measS ⟨1, none, 0, some 0⟩ ()
        (⟨[⟨(3 : Int), 5⟩], true⟩ : Machine Int)
      = (.ok (Val.i 3), ⟨[⟨3, 5⟩], true⟩)
    ∧ ∃ m1,
        interpret_measurement measA measS ⟨1, some 100, 0, some 0⟩ ()
            (⟨[⟨(3 : Int), 5⟩], true⟩ : Machine Int)
          = (headOutput (measS [()] 3 100 (prngSplit 5).2 false),
             { m1 with captureEnabled := true })
        ∧ m1.boxes[0]? = some ⟨3, (prngSplit 5).1⟩
        ∧ m1.boxes.length = 1
        ∧ DefaultQubitInterpreter.key ⟨1, some 100, 0, some 0⟩ m1 = (prngSplit 5).1 :=
  ⟨(terminal_measurement_modes measA measS ⟨1, none, 0, some 0⟩ () ⟨[⟨3, 5⟩], true⟩
      0 3 5 rfl rfl).1 rfl,
   (terminal_measurement_modes measA measS ⟨1, some 100, 0, some 0⟩ () ⟨[⟨3, 5⟩], true⟩
      0 3 5 rfl rfl).2.1 100 rfl⟩

/-- C8.  The terminal measurement handler disables the ambient capture
mechanism for the duration of its internal computation and unconditionally
re-enables it on every exit path: whatever the collaborators return — success
or failure, in either mode, attached or detached interpreter — the resulting
machine has capture enabled; and the handler's result depends on the
collaborators only through their behavior with capture disabled (they are
never consulted with the mechanism enabled). -/
theorem capture_restored (mF : Meas → Q → Bool → Except Err Val)
    (mwsF : List Meas → Q → Nat → Key → Bool → Except Err (List Val))
    (self : DefaultQubitInterpreter) (mmt : Meas) (m : Machine Q) :
    (interpret_measurement mF mwsF self mmt m).2.captureEnabled = true
    ∧ (∀ (mF2 : Meas → Q → Bool → Except Err Val)
         (mws2 : List Meas → Q → Nat → Key → Bool → Except Err (List Val)),
        (∀ mt sv, mF2 mt sv false = mF mt sv false) →
        (∀ ms sv ns kk, mws2 ms sv ns kk false = mwsF ms sv ns kk false) →
        interpret_measurement mF2 mws2 self mmt m
          = interpret_measurement mF mwsF self mmt m) := by
  refine ⟨rfl, ?_⟩
  intro mF2 mws2 h1 h2
  cases hsh : self.shots with
  | none =>
    cases hsr : self.stateref with
    | none =>
      simp [interpret_measurement, DefaultQubitInterpreter.state, hsh, hsr]
    | some r =>
      cases hbx : m.boxes[r]? with
      | none =>
        simp [interpret_measurement, DefaultQubitInterpreter.state, hsh, hsr, hbx]
      | some bx =>
        simp [interpret_measurement, DefaultQubitInterpreter.state, hsh, hsr, hbx, h1]
  | some ns =>
    cases hsr : self.stateref with
    | none =>
      simp [interpret_measurement, setKey, hsh, hsr]
    | some r =>
      cases hbx : m.boxes[r]? with
      | none =>
        simp [interpret_measurement, DefaultQubitInterpreter.state,
          DefaultQubitInterpreter.key, setKey, hsh, hsr, hbx, listModify_getElem_self]
      | some bx =>
        simp [interpret_measurement, DefaultQubitInterpreter.state,
          DefaultQubitInterpreter.key, setKey, hsh, hsr, hbx, listModify_getElem_self, h2]

/-- Closed witness for `capture_restored`: concrete collaborators agreeing with
themselves at the disabled flag yield equal results, and the flag ends true. -/
theorem capture_restored_witness :
    (interpret_measurement measA measS ⟨1, some 100, 0, some 0⟩ ()
        (⟨[⟨(3 : Int), 5⟩], false⟩ : Machine Int)).2.captureEnabled = true
    ∧ interpret_measurement measA measS ⟨1, some 100, 0, some 0⟩ ()
        (⟨[⟨(3 : Int), 5⟩], false⟩ : Machine Int)
      = interpret_measurement measA measS ⟨1, some 100, 0, some 0⟩ ()
        (⟨[⟨(3 : Int), 5⟩], false⟩ : Machine Int) :=
  ⟨(capture_restored measA measS ⟨1, some 100, 0, some 0⟩ () ⟨[⟨3, 5⟩], false⟩).1,
   (capture_restored measA measS ⟨1, some 100, 0, some 0⟩ () ⟨[⟨3, 5⟩], false⟩).2
     measA measS (fun _ _ => rfl) (fun _ _ _ _ => rfl)⟩

/-- C10.  With `queue=False` outside of recording, `map_wires` on an operator or
measurement process is a pure structural rewrite: it leaves the active queue
untouched and returns `input.map_wires(wire_map)`, a new object whose wire-free
skeleton equals the input's and whose wire labels are exactly the input's
pushed through the wire map (labels absent from the map unchanged); the input
itself is a value and is not mutated. -/
theorem map_wires_pure_rewrite (input : PLOp) (wire_map : List (Int × Int))
    (queued : List PLOp) :
    map_wires input wire_map false false false queued = (input.map_wires wire_map, queued)
    ∧ (input.map_wires wire_map).wires = input.wires.map (wmGet wire_map)
    ∧ (input.map_wires wire_map).skeleton = input.skeleton := by
  refine ⟨rfl, ?_, ?_⟩
  · induction input with
    | base n d ws => rfl
    | mp n ws => rfl
    | prod a b iha ihb => simp [PLOp.map_wires, PLOp.wires, iha, ihb]
    | plus a b iha ihb => simp [PLOp.map_wires, PLOp.wires, iha, ihb]
  · induction input with
    | base n d ws => rfl
    | mp n ws => rfl
    | prod a b iha ihb => simp [PLOp.map_wires, PLOp.skeleton, iha, ihb]
    | plus a b iha ihb => simp [PLOp.map_wires, PLOp.skeleton, iha, ihb]

end DQ
